import Mathlib

/-!
Verification of the `wavery` FST (Fast Signal Trace) reader crate
(`fst/src/varint.rs`, `fst/src/fst.rs`) against its natural-language
specification.

Modelling conventions used throughout this file:

* Rust `u64` values are modelled as `Nat` with explicit reduction `% 2 ^ 64`
  exactly where the Rust semantics truncates (shifts of 64-bit quantities);
  Rust `i64` values are modelled as `Int`.
* Byte streams (`&[u8]`, `impl BufRead`) are modelled as `List Nat` of values
  below 256; a reader returns the value read together with the remaining
  stream.  A failing `read_exact` (end of input) is the `Err.ioErr` outcome.
* Fallible Rust code (`anyhow::bail!`, `io::Error`) is modelled with
  `Except Err`; `Option`-returning code keeps `Option`.
* Rust panics (`todo!()`, index out of bounds, arithmetic overflow in builds
  with overflow checks enabled - the mode the crate's own test-suite and fuzz
  harness run in) are modelled as the distinguished `Err.panic` /
  `SvarintResult.panic` outcomes.  Where they matter this is noted next to the
  definition.  (In builds without overflow checks Rust instead masks shift
  amounts modulo 64 and wraps additions; the distinction is called out in the
  theorems concerned.)
* Arithmetic right shift on `i64` (`>> k`) is floor division, i.e. `Int.ediv`
  by `2 ^ k` (these agree for positive divisors).
-/

/-- Size of the `u64` value space. -/
def U64 : Nat := 2 ^ 64

/-- Rust `u64::MAX`, used by `read_wave_slices` as the "unresolved end" sentinel. -/
def U64MAX : Nat := 2 ^ 64 - 1

/-- Reinterpretation of a `u64` bit pattern as an `i64` (Rust `value as i64`). -/
def u64_as_i64 (v : Nat) : Int :=
  if v < 2 ^ 63 then (v : Int) else (v : Int) - 2 ^ 64

/-- Error outcomes of the embedded reader code.  `bail` is an
`anyhow::bail!`/`context` error carrying the (static part of the) message,
`ioErr` is an `std::io` read failure (end of input), and `panic` is a Rust
panic (`todo!()`, index out of bounds, or arithmetic overflow in builds with
overflow checks). -/
inductive Err where
  | ioErr : Err
  | bail : String → Err
  | panic : String → Err
deriving DecidableEq, Repr

/-! ## varint.rs -/

/-- Loop of `decode_varint` (varint.rs lines 7-27).  `value |= ((byte & 0x7F)
as u64) << shift` truncates to 64 bits, hence the `% U64`. -/
def decode_varint_go : List Nat → Nat → Nat → Option Nat
  | [], _, _ => none
  | b :: rest, shift, value =>
    if shift ≥ 64 then none
    else
      let value := value ||| (((b &&& 127) <<< shift) % U64)
      if b &&& 128 = 0 then some value
      else decode_varint_go rest (shift + 7) value

/-- Embedding of `decode_varint` (varint.rs lines 7-27): decode an unsigned
LEB128-style varint from a byte slice; `none` on end of input or when
`shift` reaches 64 before a terminating byte. -/
def decode_varint (input : List Nat) : Option Nat :=
  decode_varint_go input 0 0

/-- Result of `decode_svarint`: `val` is `Some`, `fail` is `None`, and `panic`
models the Rust panic `attempt to shift left with overflow` raised (in builds
with overflow checks) by `value |= u64::MAX << (shift + 7)` when
`shift + 7 = 70`; builds without overflow checks instead mask the shift
amount to 6 and return a wrong value. -/
inductive SvarintResult where
  | val : Int → SvarintResult
  | fail : SvarintResult
  | panic : SvarintResult
deriving DecidableEq, Repr

/-- Loop of `decode_svarint` (varint.rs lines 31-55). -/
def decode_svarint_go : List Nat → Nat → Nat → SvarintResult
  | [], _, _ => .fail
  | b :: rest, shift, value =>
    if shift ≥ 64 then .fail
    else
      let value := value ||| (((b &&& 127) <<< shift) % U64)
      if b &&& 128 = 0 then
        if b &&& 64 ≠ 0 then
          if shift + 7 ≥ 64 then .panic
          else .val (u64_as_i64 (value ||| ((U64MAX <<< (shift + 7)) % U64)))
        else .val (u64_as_i64 value)
      else decode_svarint_go rest (shift + 7) value

/-- Embedding of `decode_svarint` (varint.rs lines 31-55): decode a signed
varint; the sign is extended from payload bit 6 of the final byte. -/
def decode_svarint (input : List Nat) : SvarintResult :=
  decode_svarint_go input 0 0

/-- Loop of `encode_varint` (varint.rs lines 62-77); the fuel is the
`MAX_BYTES = 10` loop bound of the source.  `value as u8 & 0x7F` is
`(value % 256) &&& 127`. -/
def encode_varint_go : Nat → Nat → List Nat
  | _, 0 => []
  | value, fuel + 1 =>
    let bits := (value % 256) &&& 127
    let value2 := value >>> 7
    if value2 = 0 then [bits]
    else (bits ||| 128) :: encode_varint_go value2 fuel

/-- Embedding of `encode_varint` (varint.rs lines 62-77), returning the bytes
written (the written prefix of the output buffer). -/
def encode_varint (value : Nat) : List Nat :=
  encode_varint_go value 10

/-- Loop of `encode_svarint` (varint.rs lines 81-99).  `value as u8` on an
`i64` is `(value.emod 256).toNat`; `value >>= 7` is arithmetic shift,
i.e. floor division by 128. -/
def encode_svarint_go : Int → Nat → List Nat
  | _, 0 => []
  | value, fuel + 1 =>
    let bits := (value.emod 256).toNat &&& 127
    let value2 := value.ediv 128
    if (value2 ≠ 0 ∧ value2 ≠ -1) ∨ ((value2.emod 256).toNat &&& 64) ≠ (bits &&& 64) then
      (bits ||| 128) :: encode_svarint_go value2 fuel
    else [bits]

/-- Embedding of `encode_svarint` (varint.rs lines 81-99). -/
def encode_svarint (value : Int) : List Nat :=
  encode_svarint_go value 10

/-- Loop of `VarintReader::read_varint` (varint.rs lines 138-160): like
`decode_varint` but over a stream; end of input is an io error and `shift ≥ 64`
is the distinct "varint overflow" error. -/
def read_varint_go : List Nat → Nat → Nat → Except Err (Nat × List Nat)
  | [], _, _ => .error .ioErr
  | b :: rest, shift, value =>
    if shift ≥ 64 then .error (.bail "varint overflow")
    else
      let value := value ||| (((b &&& 127) <<< shift) % U64)
      if b &&& 128 = 0 then .ok (value, rest)
      else read_varint_go rest (shift + 7) value

/-- Embedding of `VarintReader::read_varint` (varint.rs lines 138-160). -/
def read_varint (input : List Nat) : Except Err (Nat × List Nat) :=
  read_varint_go input 0 0

/-- Loop of `VarintReader::read_svarint` (varint.rs lines 162-188).  The same
sign-extension expression `u64::MAX << (shift + 7)` as in `decode_svarint`
panics when `shift + 7 = 70` in builds with overflow checks. -/
def read_svarint_go : List Nat → Nat → Nat → Except Err (Int × List Nat)
  | [], _, _ => .error .ioErr
  | b :: rest, shift, value =>
    if shift ≥ 64 then .error (.bail "svarint overflow")
    else
      let value := value ||| (((b &&& 127) <<< shift) % U64)
      if b &&& 128 = 0 then
        if b &&& 64 ≠ 0 then
          if shift + 7 ≥ 64 then .error (.panic "attempt to shift left with overflow")
          else .ok (u64_as_i64 (value ||| ((U64MAX <<< (shift + 7)) % U64)), rest)
        else .ok (u64_as_i64 value, rest)
      else read_svarint_go rest (shift + 7) value

/-- Embedding of `VarintReader::read_svarint` (varint.rs lines 162-188). -/
def read_svarint (input : List Nat) : Except Err (Int × List Nat) :=
  read_svarint_go input 0 0

/-! ## fst.rs: values -/

/-- Variable length (fst.rs lines 124-128): a bit width or a real. -/
inductive VarLength where
  | Bits : Nat → VarLength
  | Real : VarLength
deriving DecidableEq, Repr

/-- The byte container `Value` (valvec.rs line 59), modelled as its byte list. -/
abbrev Value := List Nat

/-- Symbol `i` of a packed `Value` as defined by the data model: two bits at
bit position `(i % 4) * 2` of byte `i / 4` (00=0, 01=1, 10=X, 11=Z). -/
def value_symbol (v : Value) (i : Nat) : Nat :=
  (v.getD (i / 4) 0 >>> (i % 4 * 2)) &&& 3

/-- Per-byte expansion loop of `value_from_packed_bits` (fst.rs lines
1118-1128): each input byte is pushed as two output bytes.  The bit
placements are exactly the source's shift expressions. -/
def value_from_packed_bits_expand : List Nat → List Nat
  | [] => []
  | b :: rest =>
    (((b &&& 8) <<< 2) ||| ((b &&& 4) <<< 2) ||| ((b &&& 2) <<< 1) ||| ((b &&& 1) <<< 0))
    :: (((b &&& 128) >>> 1) ||| ((b &&& 64) >>> 2) ||| ((b &&& 32) >>> 3) ||| ((b &&& 16) >>> 4))
    :: value_from_packed_bits_expand rest

/-- Embedding of `value_from_packed_bits` (fst.rs lines 1106-1130): read
`(bits + 7) / 8` bytes and expand each into two output bytes. -/
def value_from_packed_bits (input : List Nat) (bits : Nat) : Except Err (Value × List Nat) :=
  let bytes_2 := (bits + 7) / 8
  if input.length < bytes_2 then .error .ioErr
  else .ok (value_from_packed_bits_expand (input.take bytes_2), input.drop bytes_2)

/-- Character-validity fold of `value_from_ascii` (fst.rs lines 1139-1143):
accumulates `(has_xz, other)` over the ASCII buffer. -/
def ascii_fold (buffer : List Nat) : Bool × Bool :=
  buffer.foldl
    (fun acc c =>
      if c = 48 ∨ c = 49 then acc
      else if c = 120 ∨ c = 88 ∨ c = 122 ∨ c = 90 then (true, acc.2)
      else (acc.1, true))
    (false, false)

/-- Packing loop of `value_from_ascii` (fst.rs lines 1157-1171): for character
`i`, `val[i / 4] |= ((c | (c >> 1) | (c >> 2)) & 0x02) << ((i % 4) * 2)`. -/
def ascii_pack : List Nat → Nat → List Nat → List Nat
  | [], _, val => val
  | c :: rest, i, val =>
    let b := (c ||| (c >>> 1) ||| (c >>> 2)) &&& 2
    ascii_pack rest (i + 1) (val.set (i / 4) ((val.getD (i / 4) 0) ||| (b <<< (i % 4 * 2))))

/-- Embedding of `value_from_ascii` (fst.rs lines 1132-1181).  For
`VarLength.Bits b` it reads `b` ASCII characters, rejects anything outside
0/1/x/X/z/Z, and packs two-bit symbols four to a byte.  For `VarLength.Real`
the source reads 8 little-endian bytes and then executes `todo!()`, i.e. it
panics (modelled as `Err.panic`). -/
def value_from_ascii (input : List Nat) : VarLength → Except Err (Value × List Nat)
  | .Bits bits =>
    if input.length < bits then .error .ioErr
    else
      let buffer := input.take bits
      if (ascii_fold buffer).2 then
        .error (.bail "Value contains a bit that isn't 0, 1, X or Z. This isn't supported.")
      else
        let bytes := (bits + 3) / 4
        .ok (ascii_pack buffer 0 (List.replicate bytes 0), input.drop bits)
  | .Real =>
    if input.length < 8 then .error .ioErr
    else .error (.panic "not yet implemented")

/-- Embedding of `value_and_time_index_delta_from_waves_table` (fst.rs lines
1183-1227): decode one value change and its time-index delta from the
decompressed wave payload.  The `VarLength.Real` arm of the source is a bare
`todo!()`, i.e. a panic that does not read any bytes. -/
def value_and_time_index_delta_from_waves_table (input : List Nat) :
    VarLength → Except Err ((Value × Nat) × List Nat)
  | .Bits 1 =>
    match read_varint input with
    | .error e => .error e
    | .ok (varint, rest) =>
      if varint &&& 1 = 0 then
        if varint &&& 2 = 0 then .ok (([0], varint >>> 2), rest)
        else .ok (([1], varint >>> 2), rest)
      else
        if varint &&& 14 = 0 then .ok (([2], varint >>> 4), rest)
        else if varint &&& 14 = 2 then .ok (([3], varint >>> 4), rest)
        else .error (.bail "Values other than 0, 1, X, Z are not supported.")
  | .Bits bits =>
    match read_varint input with
    | .error e => .error e
    | .ok (w, rest) =>
      let time_index_delta := w >>> 1
      if w &&& 1 = 0 then
        match value_from_packed_bits rest bits with
        | .error e => .error e
        | .ok (value, rest2) => .ok ((value, time_index_delta), rest2)
      else
        match value_from_ascii rest (.Bits bits) with
        | .error e => .error e
        | .ok (value, rest2) => .ok ((value, time_index_delta), rest2)
  | .Real => .error (.panic "not yet implemented")

/-! ## fst.rs: strings -/

/-- The `read_until(0, ..)` part of `read_null_terminated_string` applied to
the `take(max_size)` window: consume bytes up to and including the first NUL
(or the whole window when no NUL occurs). -/
def read_until_zero : List Nat → List Nat
  | [] => []
  | b :: rest => if b = 0 then [0] else b :: read_until_zero rest

/-- Embedding of `read_null_terminated_string` (fst.rs lines 274-281): read at
most `max_size` bytes up to a NUL, then unconditionally pop the final byte
(the source comment assumes it is the NUL).  Returns the name bytes and the
remaining stream; the source never fails on over-long names. -/
def read_null_terminated_string (input : List Nat) (max_size : Nat) : List Nat × List Nat :=
  let buf := read_until_zero (input.take max_size)
  (buf.dropLast, input.drop buf.length)

/-! ## fst.rs: block framing -/

/-- Block types (fst.rs lines 36-48). -/
inductive BlockType where
  | FST_BL_HDR
  | FST_BL_VCDATA
  | FST_BL_BLACKOUT
  | FST_BL_GEOM
  | FST_BL_HIER
  | FST_BL_VCDATA_DYN_ALIAS
  | FST_BL_HIER_LZ4
  | FST_BL_HIER_LZ4DUO
  | FST_BL_VCDATA_DYN_ALIAS2
  | FST_BL_ZWRAPPER
  | FST_BL_SKIP
deriving DecidableEq, Repr

/-- The derived `BlockType::from_u8` conversion used at fst.rs line 303. -/
def BlockType.from_u8 (b : Nat) : Option BlockType :=
  if b = 0 then some .FST_BL_HDR
  else if b = 1 then some .FST_BL_VCDATA
  else if b = 2 then some .FST_BL_BLACKOUT
  else if b = 3 then some .FST_BL_GEOM
  else if b = 4 then some .FST_BL_HIER
  else if b = 5 then some .FST_BL_VCDATA_DYN_ALIAS
  else if b = 6 then some .FST_BL_HIER_LZ4
  else if b = 7 then some .FST_BL_HIER_LZ4DUO
  else if b = 8 then some .FST_BL_VCDATA_DYN_ALIAS2
  else if b = 254 then some .FST_BL_ZWRAPPER
  else if b = 255 then some .FST_BL_SKIP
  else none

/-- The expected-block-type set immediately after a valid header block has
been processed (fst.rs lines 346-354): `FST_BL_HDR` is removed and the eight
listed types are inserted.  Note that `FST_BL_ZWRAPPER` and `FST_BL_SKIP` are
never inserted anywhere in `Fst::load`. -/
def expected_block_types_after_header : List BlockType :=
  [.FST_BL_VCDATA, .FST_BL_BLACKOUT, .FST_BL_GEOM, .FST_BL_HIER,
   .FST_BL_VCDATA_DYN_ALIAS, .FST_BL_HIER_LZ4, .FST_BL_HIER_LZ4DUO,
   .FST_BL_VCDATA_DYN_ALIAS2]

/-- Embedding of the per-block dispatch of `Fst::load` (fst.rs lines 302-410):
given the current expected set, the block-type byte and the big-endian
`block_length_including_length`, produce the fatal error raised by the framer,
or `ok` with the block type when `load` proceeds to parse the block body (the
body parsers are modelled separately).  The error order follows the source:
unknown byte, then unexpected type, then `checked_sub(8)` length validation,
then the per-type `bail!` arms. -/
def load_block_dispatch (expected : List BlockType) (type_byte : Nat)
    (block_length_including_length : Nat) : Except Err BlockType :=
  match BlockType.from_u8 type_byte with
  | none => .error (.bail "Unknown block type")
  | some bt =>
    if bt ∈ expected then
      if block_length_including_length < 8 then
        .error (.bail "Invalid block length (must be >= 8).")
      else
        match bt with
        | .FST_BL_VCDATA =>
          .error (.bail "This file uses an old format (FST_BL_VCDATA) which is not currently supported.")
        | .FST_BL_VCDATA_DYN_ALIAS =>
          .error (.bail "This file uses an old format (FST_BL_VCDATA_DYN_ALIAS) which is not currently supported.")
        | .FST_BL_ZWRAPPER =>
          .error (.bail "This file is a GZip compressed FST file (FST_BL_ZWRAPPER) which is not currently supported.")
        | .FST_BL_SKIP =>
          .error (.bail "File contains a skip block indicating it has not been finished writing. Reading partially complete files is not currently supported.")
        | other => .ok other
    else .error (.bail "Unexpected block type")

/-! ## fst.rs: hierarchy variable ids -/

/-- Embedding of the VarId assignment performed for variable records during
`Fst::read_hierarchy` (fst.rs lines 702-729), restricted to the data the
assignment depends on: the sequence of `alias` varints of the variable
records, in order.  Each element of the result is the `(id, is_alias)` pair
stored in the `HierarchyVar`.  (Scope, attribute and upscope records do not
touch `next_varid`, so they are irrelevant to the assignment and omitted.
The source's `next_varid` is a `u64`; overflow is unreachable for any record
sequence a file can hold and the counter is modelled as `Nat`.) -/
def read_hierarchy_var_ids (aliases : List Nat) (next_varid : Nat) : List (Nat × Bool) :=
  match aliases with
  | [] => []
  | a :: rest =>
    if a = 0 then (next_varid, false) :: read_hierarchy_var_ids rest (next_varid + 1)
    else (a - 1, true) :: read_hierarchy_var_ids rest next_varid

/-! ## fst.rs: position-table alias resolver -/

/-- Inner byte-collection loop of `Fst::read_wave_slices` (fst.rs lines
975-987): gather the bytes of one varint, at most 10; a tenth continuation
byte is the "Invalid varint" error, end of input is an io error.  `len` is
the number of bytes collected so far. -/
def collect_varint_bytes : List Nat → Nat → Except Err (List Nat × List Nat)
  | [], _ => .error .ioErr
  | b :: rest, len =>
    if b &&& 128 = 0 then .ok ([b], rest)
    else if len + 1 ≥ 10 then .error (.bail "Invalid varint")
    else
      match collect_varint_bytes rest (len + 1) with
      | .ok (chunk, r) => .ok (b :: chunk, r)
      | .error e => .error e

/-- Resolution loop of `Fst::read_wave_slices` (fst.rs lines 1021-1027 and
1062-1068): for every slice at index `≥ lo` whose end is the `u64::MAX`
sentinel, set the end to `e`.  `i` is the index of the head of `sl`. -/
def resolve_slices_from (sl : List (Nat × Nat)) (i lo e : Nat) : List (Nat × Nat) :=
  match sl with
  | [] => []
  | s :: rest =>
    (if lo ≤ i ∧ s.2 = U64MAX then (s.1, e) else s) :: resolve_slices_from rest (i + 1) lo e

/-- Main loop of `Fst::read_wave_slices` (fst.rs lines 948-1071) for a single
value-change block.  State: `slices` are the wave slices pushed so far (the
current VarId is `slices.length`), `prevOff` is `prev_non_alias_offset`,
`prevAlias` is `prev_dynamic_alias` and `lo` is `varid_length_unresolved`.
Modelling notes: a zero run that would overrun `var_data` indexes out of
bounds in the source, which is the `panic` outcome; `prev_non_alias_offset +=
x` is checked addition (`panic` on `u64` overflow, matching builds with
overflow checks - without them the source would wrap);  the `fuel` is an
upper bound on loop iterations (`input.length + 1` always suffices because
every iteration consumes at least one byte) and only exists to make the
recursion structural; exhausted fuel is an (unreachable) `bail`. -/
def read_wave_slices_go (fuel : Nat) (input : List Nat) (numVars L : Nat)
    (slices : List (Nat × Nat)) (prevOff : Nat) (prevAlias : Option Nat) (lo : Nat) :
    Except Err (List (Nat × Nat)) :=
  match fuel with
  | 0 => .error (.bail "out of fuel")
  | fuel + 1 =>
    if slices.length < numVars then
      match collect_varint_bytes input 0 with
      | .error e => .error e
      | .ok (chunk, rest) =>
        if chunk.headD 0 &&& 1 = 0 then
          match decode_varint chunk with
          | none => .error (.bail "Varint decode error")
          | some u =>
            let zero_run_length := u >>> 1
            if slices.length + zero_run_length ≤ numVars then
              read_wave_slices_go fuel rest numVars L
                (slices ++ List.replicate zero_run_length (0, 0)) prevOff prevAlias lo
            else .error (.panic "index out of bounds")
        else
          match decode_svarint chunk with
          | .fail => .error (.bail "Varint decode error")
          | .panic => .error (.panic "attempt to shift left with overflow")
          | .val s =>
            let value := s.ediv 2
            if 0 < value then
              if prevOff + value.toNat < U64 then
                let cur := prevOff + value.toNat
                read_wave_slices_go fuel rest numVars L
                  (resolve_slices_from slices 0 lo (cur - 1) ++ [(cur - 1, U64MAX)])
                  cur prevAlias slices.length
              else .error (.panic "attempt to add with overflow")
            else if value < 0 then
              let aliased_var := (-(value + 1)).toNat
              if slices.length ≤ aliased_var then
                .error (.bail "Position table aliases var to one that has not been seen yet.")
              else
                read_wave_slices_go fuel rest numVars L
                  (slices ++ [slices.getD aliased_var (0, 0)]) prevOff (some aliased_var) lo
            else
              match prevAlias with
              | some aliased_var =>
                read_wave_slices_go fuel rest numVars L
                  (slices ++ [slices.getD aliased_var (0, 0)]) prevOff prevAlias lo
              | none =>
                .error (.bail "Position table aliased var to previous alias but there is none.")
    else
      .ok (resolve_slices_from slices 0 lo L)

/-- Embedding of `Fst::read_wave_slices` (fst.rs lines 948-1071) for one
value-change block: parse the position table from `input`, producing one wave
slice (start, end) per VarId, with unresolved ends finally set to the waves
region length `L`. -/
def read_wave_slices (input : List Nat) (numVars L : Nat) : Except Err (List (Nat × Nat)) :=
  read_wave_slices_go (input.length + 1) input numVars L [] 0 none 0

/-! ## Specification-side definitions for the position table (claim C3) -/

/-- Decoded position-table entry, as described by the specification: a
zero-run, a positive delta-encoded offset, a dynamic alias to an earlier
VarId, or a repeat of the previous dynamic alias. -/
inductive PosEntry where
  | zeroRun : Nat → PosEntry
  | offset : Nat → PosEntry
  | dynAlias : Nat → PosEntry
  | repeatAlias : PosEntry
deriving DecidableEq, Repr

/-- Number of VarIds covered by one position-table entry. -/
def PosEntry.cover : PosEntry → Nat
  | .zeroRun k => k
  | _ => 1

/-- Total number of VarIds covered by a list of entries. -/
def entriesCover (es : List PosEntry) : Nat :=
  (es.map PosEntry.cover).sum

/-- Cumulative `cur = prev_non_alias_offset + v` values produced by the
offset entries of a list, starting from offset `p`. -/
def specCurs : List PosEntry → Nat → List Nat
  | [], _ => []
  | .offset d :: es, p => (p + d) :: specCurs es (p + d)
  | _ :: es, p => specCurs es p

/-- Well-formed varint byte chunk: non-empty, at most 10 bytes, all bytes
below 256, every byte except the last with the continuation bit set, and the
last byte without it. -/
def chunkWF (c : List Nat) : Prop :=
  c ≠ [] ∧ c.length ≤ 10 ∧ (∀ b ∈ c.dropLast, b < 256 ∧ b &&& 128 ≠ 0) ∧
    c.getLastD 0 < 256 ∧ c.getLastD 0 &&& 128 = 0

instance : DecidablePred chunkWF := fun c => by
  unfold chunkWF; infer_instance

/-- Relation between a varint byte chunk and the position-table entry it
encodes, following the claim: the LSB of the (first byte of the) unsigned
varint distinguishes zero-runs (`u >> 1` VarIds) from signed values `v =
svarint >> 1`, where `v > 0` is a delta offset, `v < 0` a dynamic alias to
VarId `-v - 1`, and `v = 0` a repeat of the previous dynamic alias. -/
def entryEncodes (c : List Nat) (e : PosEntry) : Prop :=
  chunkWF c ∧
    match e with
    | .zeroRun k => c.headD 0 &&& 1 = 0 ∧ decode_varint c = some (2 * k)
    | .offset d => c.headD 0 &&& 1 = 1 ∧ 0 < d ∧ decode_svarint c = .val (2 * (d : Int) + 1)
    | .dynAlias a => c.headD 0 &&& 1 = 1 ∧ decode_svarint c = .val (-2 * (a : Int) - 1)
    | .repeatAlias => c.headD 0 &&& 1 = 1 ∧ decode_svarint c = .val 1

instance : ∀ c e, Decidable (entryEncodes c e) := fun c e => by
  unfold entryEncodes; cases e <;> infer_instance

/-- Resolver of the position table as worded by the specification, over
decoded entries.  Slices carry an optional end (`none` is "unresolved").
`sl` accumulates the slices (the current VarId is `sl.length`), `prev` is the
previous non-alias offset and `pa` the previous dynamic alias. -/
def resolverSpecGo : List PosEntry → List (Nat × Option Nat) → Nat → Option Nat →
    Except String (List (Nat × Option Nat))
  | [], sl, _, _ => .ok sl
  | .zeroRun k :: es, sl, prev, pa =>
    resolverSpecGo es (sl ++ List.replicate k (0, some 0)) prev pa
  | .offset d :: es, sl, prev, pa =>
    let cur := prev + d
    resolverSpecGo es
      ((sl.map fun s => if s.2 = none then (s.1, some (cur - 1)) else s) ++ [(cur - 1, none)])
      cur pa
  | .dynAlias a :: es, sl, prev, _ =>
    if a < sl.length then resolverSpecGo es (sl ++ [sl.getD a (0, some 0)]) prev (some a)
    else .error "dynamic alias must refer to a strictly lower VarId"
  | .repeatAlias :: es, sl, prev, pa =>
    match pa with
    | some a => resolverSpecGo es (sl ++ [sl.getD a (0, some 0)]) prev pa
    | none => .error "repeat of previous dynamic alias but there is none"

/-- Close the still-unresolved slice ends at `L` (the final step of the
resolver as worded by the specification). -/
def specFinish (sl : List (Nat × Option Nat)) (L : Nat) : List (Nat × Nat) :=
  sl.map fun s => (s.1, s.2.getD L)

/-- Specification-side position-table resolver: process all entries, then set
any still-unresolved ends to the waves-region length `L`. -/
def resolverSpec (es : List PosEntry) (L : Nat) : Except String (List (Nat × Nat)) :=
  match resolverSpecGo es [] 0 none with
  | .ok sl => .ok (specFinish sl L)
  | .error msg => .error msg

/-- Decidable equality for `Except` results, used to evaluate the embedded
functions at concrete inputs. -/
instance exceptDecEq {ε α : Type} [DecidableEq ε] [DecidableEq α] :
    DecidableEq (Except ε α) := fun a b =>
  match a, b with
  | .ok x, .ok y =>
    if h : x = y then .isTrue (by rw [h]) else .isFalse (by intro hc; injection hc; contradiction)
  | .error x, .error y =>
    if h : x = y then .isTrue (by rw [h]) else .isFalse (by intro hc; injection hc; contradiction)
  | .ok _, .error _ => .isFalse (by intro hc; injection hc)
  | .error _, .ok _ => .isFalse (by intro hc; injection hc)

/-- Invariant of the `read_wave_slices_go` state, used for claim C5.  With
`slices` the slices pushed so far, `prevOff` the previous non-alias offset
and `lo` the first index that may still be unresolved: (i) `lo` is within
range; (ii) no slice below `lo` is unresolved; (iii) every unresolved slice
starts at `prevOff - 1`; (iv) every resolved slice has `start ≤ end` and its
end is 0 or the start of some slice. -/
def wsInv (slices : List (Nat × Nat)) (prevOff lo : Nat) : Prop :=
  lo ≤ slices.length ∧
  (∀ i s, slices.get? i = some s → i < lo → s.2 ≠ U64MAX) ∧
  (∀ s ∈ slices, s.2 = U64MAX → s.1 + 1 = prevOff) ∧
  (∀ s ∈ slices, s.2 ≠ U64MAX → s.1 ≤ s.2 ∧ (s.2 = 0 ∨ ∃ t ∈ slices, t.1 = s.2))

/-! ## Helper lemmas on bit operations -/

theorem and127_eq_mod (x : Nat) : x &&& 127 = x % 128 := by
  have h : (127 : Nat) = 2 ^ 7 - 1 := by norm_num
  rw [h, Nat.and_pow_two_sub_one_eq_mod]

theorem mod256_and127_eq_mod (x : Nat) : (x % 256) &&& 127 = x % 128 := by
  rw [and127_eq_mod]
  exact Nat.mod_mod_of_dvd x (by norm_num)

theorem and128_eq_zero_of_lt {x : Nat} (h : x < 128) : x &&& 128 = 0 := by
  have h7 : (128 : Nat) = 2 ^ 7 := by norm_num
  rw [h7, Nat.and_two_pow, Nat.testBit_lt_two_pow (by omega)]
  simp

theorem or128_and127 (x : Nat) : (x ||| 128) &&& 127 = x &&& 127 := by
  rw [Nat.and_comm (x ||| 128) 127, Nat.and_or_distrib_left, Nat.and_comm 127 x]
  have h : 127 &&& 128 = 0 := by decide
  rw [h, Nat.or_zero]

theorem or128_and128 (x : Nat) {y : Nat} (h : x &&& 128 = y) : (x ||| 128) &&& 128 = y ||| 128 := by
  rw [Nat.and_comm (x ||| 128) 128, Nat.and_or_distrib_left, Nat.and_comm 128 x, h]
  rfl

theorem or_disjoint_eq_add {a : Nat} (b n : Nat) (h : a < 2 ^ n) :
    a ||| b * 2 ^ n = a + b * 2 ^ n := by
  rw [Nat.or_comm, Nat.mul_comm b (2 ^ n), ← Nat.mul_add_lt_is_or h b, Nat.mul_comm]
  omega

/-! ## Claim C2: varint round trip -/

theorem varint_roundtrip_aux :
    ∀ fuel v shift acc, 1 ≤ fuel → fuel ≤ 10 → shift = 7 * (10 - fuel) →
      v < 2 ^ (64 - shift) → acc < 2 ^ shift →
      decode_varint_go (encode_varint_go v fuel) shift acc = some (acc + v * 2 ^ shift) := by
  intro fuel
  induction fuel with
  | zero => omega
  | succ f ih =>
    intro v shift acc _ hle hshift hv hacc
    have hshift63 : shift ≤ 63 := by omega
    have hns : ¬ (shift ≥ 64) := by omega
    by_cases hv2 : v >>> 7 = 0
    · -- final byte: the encoder emits the single byte `v` without continuation
      have hv128 : v < 128 := by
        rw [Nat.shiftRight_eq_div_pow] at hv2
        norm_num at hv2
        omega
      have hmod : v % 128 = v := Nat.mod_eq_of_lt hv128
      have henc : encode_varint_go v (f + 1) = [v] := by
        simp [encode_varint_go, hv2, mod256_and127_eq_mod, hmod]
      have ha : v &&& 127 = v := by rw [and127_eq_mod, hmod]
      have hterm : v &&& 128 = 0 := and128_eq_zero_of_lt hv128
      have hlt : v * 2 ^ shift < 2 ^ 64 := by
        calc v * 2 ^ shift < 2 ^ (64 - shift) * 2 ^ shift :=
              (Nat.mul_lt_mul_right (Nat.two_pow_pos shift)).mpr hv
        _ = 2 ^ 64 := by rw [← pow_add]; congr 1; omega
      rw [henc]
      simp only [decode_varint_go, if_neg hns, ha, Nat.shiftLeft_eq, U64,
        Nat.mod_eq_of_lt hlt, hterm, if_pos rfl]
      rw [or_disjoint_eq_add _ _ hacc]
      simp
    · -- continuation byte `(v % 128) ||| 128` followed by the encoding of `v >>> 7`
      have hf1 : 1 ≤ f := by
        by_contra hc
        have hf0 : f = 0 := by omega
        subst hf0
        have hs : shift = 63 := by omega
        rw [hs] at hv
        norm_num at hv
        rw [Nat.shiftRight_eq_div_pow] at hv2
        norm_num at hv2
        omega
      have henc : encode_varint_go v (f + 1)
          = ((v % 128) ||| 128) :: encode_varint_go (v >>> 7) f := by
        simp [encode_varint_go, hv2, mod256_and127_eq_mod]
      have hb127 : ((v % 128) ||| 128) &&& 127 = v % 128 := by
        rw [or128_and127, and127_eq_mod]
        omega
      have hb128 : ((v % 128) ||| 128) &&& 128 = 128 := by
        rw [or128_and128 _ (and128_eq_zero_of_lt (Nat.mod_lt _ (by norm_num)))]
        rfl
      have hshift56 : shift ≤ 56 := by omega
      have hlt : v % 128 * 2 ^ shift < 2 ^ 64 := by
        calc v % 128 * 2 ^ shift < 128 * 2 ^ shift :=
              (Nat.mul_lt_mul_right (Nat.two_pow_pos shift)).mpr (Nat.mod_lt _ (by norm_num))
        _ = 2 ^ (shift + 7) := by rw [pow_add]; ring
        _ ≤ 2 ^ 64 := Nat.pow_le_pow_right (by norm_num) (by omega)
      have hacc2 : acc + v % 128 * 2 ^ shift < 2 ^ (shift + 7) := by
        have h1 : v % 128 ≤ 127 := by omega
        have h2 : v % 128 * 2 ^ shift ≤ 127 * 2 ^ shift := Nat.mul_le_mul_right _ h1
        have h3 : (2 : Nat) ^ (shift + 7) = 128 * 2 ^ shift := by rw [pow_add]; ring
        omega
      have hv2lt : v >>> 7 < 2 ^ (64 - (shift + 7)) := by
        rw [Nat.shiftRight_eq_div_pow]
        rw [Nat.div_lt_iff_lt_mul (by norm_num : (0 : Nat) < 2 ^ 7)]
        calc v < 2 ^ (64 - shift) := hv
        _ = 2 ^ (64 - (shift + 7)) * 2 ^ 7 := by rw [← pow_add]; congr 1; omega
      have hrec := ih (v >>> 7) (shift + 7) (acc + v % 128 * 2 ^ shift) hf1 (by omega)
        (by omega) hv2lt hacc2
      rw [henc]
      simp only [decode_varint_go, if_neg hns, hb127, hb128, Nat.shiftLeft_eq, U64,
        Nat.mod_eq_of_lt hlt]
      norm_num
      rw [or_disjoint_eq_add _ _ hacc, hrec]
      congr 1
      have hsr : v >>> 7 = v / 128 := by
        rw [Nat.shiftRight_eq_div_pow]
      have hpow : (2 : Nat) ^ (shift + 7) = 2 ^ shift * 128 := by rw [pow_add]; norm_num
      rw [hsr, hpow]
      calc acc + v % 128 * 2 ^ shift + v / 128 * (2 ^ shift * 128)
          = acc + (v % 128 + 128 * (v / 128)) * 2 ^ shift := by ring
      _ = acc + v * 2 ^ shift := by rw [Nat.mod_add_div]

/-- C2.  The unsigned round-trip law holds for every `u64` and the two known
vectors are produced, but the signed round-trip law fails: `encode_svarint`
of `i64::MIN` is the 10-byte string `80 .. 80 7F`, and `decode_svarint` of
that string reaches the sign-extension `u64::MAX << (shift + 7)` with
`shift = 63`, a shift-amount overflow: builds with overflow checks (the mode
the crate's own tests run in) panic, and unchecked builds mask the shift to 6
and return `-64` instead of `i64::MIN`. -/
theorem varint_roundtrip_law :
    (∀ v : Nat, v < 2 ^ 64 → decode_varint (encode_varint v) = some v)
    ∧ encode_varint 3141 = [0xC5, 0x18]
    ∧ encode_svarint (-15429) = [0xBB, 0x87, 0x7F]
    ∧ encode_svarint (-(2 ^ 63)) = [128, 128, 128, 128, 128, 128, 128, 128, 128, 0x7F]
    ∧ decode_svarint (encode_svarint (-(2 ^ 63))) = .panic := by
  refine ⟨?_, by decide, by decide, by decide, by decide⟩
  intro v hv
  have h := varint_roundtrip_aux 10 v 0 0 (by norm_num) (by norm_num) (by norm_num)
    (by simpa using hv) (by norm_num)
  unfold decode_varint encode_varint
  simpa using h

/-- Witness for `varint_roundtrip_law`: its universally quantified conjunct
applied at the concrete value 3141. -/
theorem varint_roundtrip_law_witness :
    decode_varint (encode_varint 3141) = some 3141 :=
  varint_roundtrip_law.1 3141 (by norm_num)

/-! ## Claim C10: decode_svarint / read_svarint panic on the 70-bit shift -/

/-- C10.  On the 10-byte input whose terminating byte has payload bit `0x40`
set, both `decode_svarint` and `VarintReader::read_svarint` reach
`value |= u64::MAX << (shift + 7)` with `shift + 7 = 70`: a shift-amount
overflow, which panics in builds with overflow checks (contradicting the
claim that every input returns `Some`/`None` resp. `Ok`/`Err` without
panicking). -/
theorem svarint_shift_overflow_panics :
    decode_svarint [128, 128, 128, 128, 128, 128, 128, 128, 128, 64] = .panic
    ∧ read_svarint [128, 128, 128, 128, 128, 128, 128, 128, 128, 64] =
        .error (.panic "attempt to shift left with overflow") := by
  constructor <;> decide

/-! ## Claim C1: ASCII value packing -/

/-- C1.  `value_from_ascii` packs symbols at the claimed positions but with
the wrong values: the expression `((c | c >> 1 | c >> 2) & 0x02)` can only
produce 0 or 2, never the claimed symbols 1 (for '1') and 3 (for 'Z'),
contradicting the source's own comment that it makes "the value we want
(0, 1, 2, 3)".  For the two-character input "1Z" (bytes 49, 90) the packed
value is the single byte 8: symbol 0 decodes to 0 (claim: 1) and symbol 1
decodes to 2 (claim: 3). -/
theorem value_from_ascii_drops_low_symbol_bit :
    value_from_ascii [49, 90] (.Bits 2) = .ok ([8], [])
    ∧ value_symbol [8] 0 = 0 ∧ value_symbol [8] 1 = 2 := by
  refine ⟨by decide, by decide, by decide⟩

/-! ## Claim C4: packed-bits expansion -/

/-- C4.  `value_from_packed_bits` does read `(bits + 7) / 8` bytes and expand
each into two output bytes, but (a) the expansion is not the claimed
interleave: input bit 3 is placed at output bit 5 (`(b & 0b1000) << 2`)
instead of bit 6, so byte `0x08` expands to `0x20` (symbol 2 becomes X and
symbol 3 becomes 0 instead of symbol 3 becoming 1); and (b) the result length
is `2 * ((bits + 7) / 8)`, not `(bits + 3) / 4`: for 4 bits the result has 2
bytes, not 1. -/
theorem value_from_packed_bits_misplaced_bit_and_length :
    value_from_packed_bits [8] 8 = .ok ([32, 0], [])
    ∧ value_symbol [32, 0] 2 = 2 ∧ value_symbol [32, 0] 3 = 0
    ∧ value_from_packed_bits [15] 4 = .ok ([53, 0], [])
    ∧ ([53, 0] : Value).length = 2 ∧ (4 + 3) / 4 = 1 := by
  refine ⟨by decide, by decide, by decide, by decide, by decide, by decide⟩

/-! ## Claim C7: real-typed values -/

/-- C7.  Decoding a value of a `VarLength::Real` variable never returns the 8
little-endian payload bytes: both the wave-decoder path
(`value_and_time_index_delta_from_waves_table`, which does not even read the
bytes) and the initial-values path (`value_from_ascii`, which reads 8 bytes
and then executes `todo!()`) panic. -/
theorem real_value_decoding_panics :
    value_and_time_index_delta_from_waves_table [0, 0, 0, 0, 0, 0, 0, 0] .Real
      = .error (.panic "not yet implemented")
    ∧ value_from_ascii [0, 0, 0, 0, 0, 0, 0, 0] .Real
      = .error (.panic "not yet implemented") := by
  constructor <;> decide

/-! ## Claim C9: over-long hierarchy names -/

set_option maxRecDepth 4000 in
/-- C9.  A name longer than 512 bytes does not cause any error:
`read_null_terminated_string` reads the 512-byte window, finds no NUL, pops a
data byte (the source comment claims the popped byte "includes the 0 byte"),
and returns a silently truncated 511-byte name, leaving the rest of the name
and its NUL unconsumed.  Here the name is 520 '1' bytes followed by NUL. -/
theorem long_name_silently_truncated :
    read_null_terminated_string (List.replicate 520 49 ++ [0]) 512
      = (List.replicate 511 49, List.replicate 8 49 ++ [0]) := by
  decide

/-! ## Claim C6: unsupported block types -/

/-- C6 counterexample.  After a valid header the expected-type set never
contains `FST_BL_ZWRAPPER` or `FST_BL_SKIP`, so both fail the expected-set
check and produce the very same "Unexpected block type" error (the Malformed
kind, as also produced for the out-of-place `FST_BL_HDR`), not the distinct
"unsupported" error the claim describes. -/
theorem zwrapper_skip_get_malformed_error :
    load_block_dispatch expected_block_types_after_header 254 16
      = .error (.bail "Unexpected block type")
    ∧ load_block_dispatch expected_block_types_after_header 255 16
      = .error (.bail "Unexpected block type")
    ∧ load_block_dispatch expected_block_types_after_header 0 16
      = .error (.bail "Unexpected block type")
    ∧ (Err.bail "Unexpected block type"
        ≠ Err.bail "This file is a GZip compressed FST file (FST_BL_ZWRAPPER) which is not currently supported.") := by
  refine ⟨by decide, by decide, by decide, by decide⟩

/-- C6 amended.  For every block length of at least 8, `FST_BL_VCDATA` and
`FST_BL_VCDATA_DYN_ALIAS` after a valid header fail with their distinct
"not currently supported" errors, different from every Malformed-kind error
(unknown type byte, unexpected type, invalid length); `FST_BL_ZWRAPPER` and
`FST_BL_SKIP` instead fail with the Malformed "Unexpected block type" error
because they are never in the expected set; unknown bytes and block lengths
below 8 also produce Malformed-kind errors. -/
theorem unsupported_and_malformed_block_errors (len : Nat) (hlen : 8 ≤ len) :
    load_block_dispatch expected_block_types_after_header 1 len
      = .error (.bail "This file uses an old format (FST_BL_VCDATA) which is not currently supported.")
    ∧ load_block_dispatch expected_block_types_after_header 5 len
      = .error (.bail "This file uses an old format (FST_BL_VCDATA_DYN_ALIAS) which is not currently supported.")
    ∧ load_block_dispatch expected_block_types_after_header 254 len
      = .error (.bail "Unexpected block type")
    ∧ load_block_dispatch expected_block_types_after_header 255 len
      = .error (.bail "Unexpected block type")
    ∧ load_block_dispatch expected_block_types_after_header 9 len
      = .error (.bail "Unknown block type")
    ∧ load_block_dispatch expected_block_types_after_header 1 7
      = .error (.bail "Invalid block length (must be >= 8).")
    ∧ (Err.bail "This file uses an old format (FST_BL_VCDATA) which is not currently supported.")
        ∉ [Err.bail "Unknown block type", Err.bail "Unexpected block type",
           Err.bail "Invalid block length (must be >= 8)."]
    ∧ (Err.bail "This file uses an old format (FST_BL_VCDATA_DYN_ALIAS) which is not currently supported.")
        ∉ [Err.bail "Unknown block type", Err.bail "Unexpected block type",
           Err.bail "Invalid block length (must be >= 8)."] := by
  have hn : ¬ (len < 8) := by omega
  refine ⟨?_, ?_, ?_, ?_, ?_, by decide, by decide, by decide⟩
  · simp [load_block_dispatch, BlockType.from_u8, expected_block_types_after_header, hn]
  · simp [load_block_dispatch, BlockType.from_u8, expected_block_types_after_header, hn]
  · simp [load_block_dispatch, BlockType.from_u8, expected_block_types_after_header, hn]
  · simp [load_block_dispatch, BlockType.from_u8, expected_block_types_after_header, hn]
  · simp [load_block_dispatch, BlockType.from_u8, expected_block_types_after_header, hn]

/-- Witness for `unsupported_and_malformed_block_errors` at block length 16. -/
theorem unsupported_and_malformed_block_errors_witness :
    load_block_dispatch expected_block_types_after_header 1 16
      = .error (.bail "This file uses an old format (FST_BL_VCDATA) which is not currently supported.") :=
  (unsupported_and_malformed_block_errors 16 (by norm_num)).1

/-! ## Claim C8: hierarchy VarId assignment -/

theorem read_hierarchy_var_ids_spec :
    ∀ (aliases : List Nat) (n : Nat),
      (read_hierarchy_var_ids aliases n).length = aliases.length
      ∧ ∀ i a, aliases.get? i = some a →
          (read_hierarchy_var_ids aliases n).get? i =
            some (if a = 0 then (n + (aliases.take i).count 0, false) else (a - 1, true)) := by
  intro aliases
  induction aliases with
  | nil =>
    intro n
    refine ⟨rfl, ?_⟩
    intro i a h
    simp [List.get?] at h
  | cons x xs ih =>
    intro n
    constructor
    · by_cases hx : x = 0 <;> simp [read_hierarchy_var_ids, hx, (ih (n + 1)).1, (ih n).1]
    · intro i a h
      cases i with
      | zero =>
        simp only [List.get?] at h
        have hxa : x = a := by injection h
        subst hxa
        by_cases hx : x = 0 <;> simp [read_hierarchy_var_ids, hx, List.get?]
      | succ i =>
        simp only [List.get?] at h
        by_cases hx : x = 0
        · have hr := (ih (n + 1)).2 i a h
          subst hx
          simp only [read_hierarchy_var_ids, if_pos rfl, List.get?, hr]
          by_cases ha : a = 0
          · simp only [ha, if_pos rfl, List.take_succ_cons, List.count_cons]
            congr 2
            simp
            omega
          · simp [ha]
        · have hr := (ih n).2 i a h
          simp only [read_hierarchy_var_ids, if_neg hx, List.get?, hr]
          by_cases ha : a = 0
          · simp only [ha, if_pos rfl, List.take_succ_cons, List.count_cons]
            congr 3
            simp [hx]
          · simp [ha]

/-- C8.  During hierarchy parsing a variable record with `alias = 0` is
assigned the next sequential VarId (the number of non-alias records before
it, starting from 0) with `is_alias = false`; a record with `alias ≠ 0` is
assigned VarId `alias - 1` with `is_alias = true` and does not advance the
counter.  The hypothesis expresses the claim's side condition that aliases
refer to a previously allocated VarId (a property of well-formed files that
the source relies on but does not check).  In particular a third variable
with alias field 2 shares VarId 1 and the next non-alias record receives
VarId 2. -/
theorem hierarchy_var_id_assignment (aliases : List Nat)
    (_hvalid : ∀ i (h : i < aliases.length),
      aliases.get ⟨i, h⟩ ≠ 0 → aliases.get ⟨i, h⟩ - 1 < (aliases.take i).count 0) :
    (read_hierarchy_var_ids aliases 0).length = aliases.length
    ∧ (∀ i a, aliases.get? i = some a →
        (read_hierarchy_var_ids aliases 0).get? i =
          some (if a = 0 then ((aliases.take i).count 0, false) else (a - 1, true)))
    ∧ read_hierarchy_var_ids [0, 0, 2, 0] 0
        = [(0, false), (1, false), (1, true), (2, false)] := by
  have h := read_hierarchy_var_ids_spec aliases 0
  refine ⟨h.1, ?_, by decide⟩
  intro i a ha
  have h2 := h.2 i a ha
  simpa using h2

/-- Witness for `hierarchy_var_id_assignment` on the spec's alias scenario. -/
theorem hierarchy_var_id_assignment_witness :
    read_hierarchy_var_ids [0, 0, 2, 0] 0 = [(0, false), (1, false), (1, true), (2, false)] :=
  (hierarchy_var_id_assignment [0, 0, 2, 0] (by decide)).2.2

/-! ## Claim C5: wave-slice bounds -/

theorem resolve_slices_from_length :
    ∀ (sl : List (Nat × Nat)) (i lo e : Nat), (resolve_slices_from sl i lo e).length = sl.length := by
  intro sl
  induction sl with
  | nil => intro i lo e; rfl
  | cons s rest ih => intro i lo e; simp [resolve_slices_from, ih]

theorem resolve_slices_from_get? :
    ∀ (sl : List (Nat × Nat)) (i lo e j : Nat),
      (resolve_slices_from sl i lo e).get? j =
        (sl.get? j).map (fun s => if lo ≤ i + j ∧ s.2 = U64MAX then (s.1, e) else s) := by
  intro sl
  induction sl with
  | nil => intro i lo e j; simp [resolve_slices_from]
  | cons s rest ih =>
    intro i lo e j
    cases j with
    | zero => simp [resolve_slices_from, List.get?]
    | succ j =>
      have harith : i + 1 + j = i + (j + 1) := by omega
      simp only [resolve_slices_from, List.get?, ih (i + 1) lo e j, harith]

theorem mem_resolve_slices_from {s : Nat × Nat} {sl : List (Nat × Nat)} {lo e : Nat} :
    s ∈ resolve_slices_from sl 0 lo e ↔
      ∃ j t, sl.get? j = some t ∧ s = (if lo ≤ j ∧ t.2 = U64MAX then (t.1, e) else t) := by
  rw [List.mem_iff_get?]
  constructor
  · rintro ⟨j, hj⟩
    rw [resolve_slices_from_get?] at hj
    cases hsl : sl.get? j with
    | none => rw [hsl] at hj; simp at hj
    | some t =>
      rw [hsl] at hj
      injection hj with hj
      refine ⟨j, t, hsl, ?_⟩
      rw [← hj]
      simp
  · rintro ⟨j, t, hjt, rfl⟩
    refine ⟨j, ?_⟩
    rw [resolve_slices_from_get?, hjt]
    simp

theorem resolve_slices_from_preserves_starts {sl : List (Nat × Nat)} {u : Nat × Nat}
    (lo e : Nat) (hu : u ∈ sl) :
    ∃ w ∈ resolve_slices_from sl 0 lo e, w.1 = u.1 := by
  obtain ⟨j, hj⟩ := List.mem_iff_get?.mp hu
  by_cases hc : lo ≤ j ∧ u.2 = U64MAX
  · exact ⟨(u.1, e), mem_resolve_slices_from.mpr ⟨j, u, hj, by rw [if_pos hc]⟩, rfl⟩
  · exact ⟨u, mem_resolve_slices_from.mpr ⟨j, u, hj, by rw [if_neg hc]⟩, rfl⟩

theorem wsInv_append_empties {sl : List (Nat × Nat)} {p lo : Nat} (h : wsInv sl p lo) (k : Nat) :
    wsInv (sl ++ List.replicate k (0, 0)) p lo := by
  obtain ⟨h1, h2, h3, h4⟩ := h
  refine ⟨by simp [List.length_append]; omega, ?_, ?_, ?_⟩
  · intro i s hget hi
    rw [List.get?_append (by omega : i < sl.length)] at hget
    exact h2 i s hget hi
  · intro s hs
    rcases List.mem_append.mp hs with hmem | hmem
    · exact h3 s hmem
    · have hseq : s = (0, 0) := List.eq_of_mem_replicate hmem
      subst hseq
      intro habs
      simp [U64MAX] at habs
  · intro s hs hne
    rcases List.mem_append.mp hs with hmem | hmem
    · obtain ⟨hle, hdisj⟩ := h4 s hmem hne
      refine ⟨hle, ?_⟩
      rcases hdisj with h0 | ⟨t, ht, hteq⟩
      · exact Or.inl h0
      · exact Or.inr ⟨t, List.mem_append_left _ ht, hteq⟩
    · have hseq : s = (0, 0) := List.eq_of_mem_replicate hmem
      subst hseq
      exact ⟨le_refl 0, Or.inl rfl⟩

theorem wsInv_append_clone {sl : List (Nat × Nat)} {p lo : Nat} (h : wsInv sl p lo) (a : Nat) :
    wsInv (sl ++ [sl.getD a (0, 0)]) p lo := by
  obtain ⟨h1, h2, h3, h4⟩ := h
  have hclone : sl.getD a (0, 0) ∈ sl ∨ sl.getD a (0, 0) = (0, 0) := by
    rw [List.getD_eq_get?]
    cases hga : sl.get? a with
    | none => right; rfl
    | some t => left; simpa using List.get?_mem hga
  refine ⟨by simp [List.length_append]; omega, ?_, ?_, ?_⟩
  · intro i s hget hi
    rw [List.get?_append (by omega : i < sl.length)] at hget
    exact h2 i s hget hi
  · intro s hs
    rcases List.mem_append.mp hs with hmem | hmem
    · exact h3 s hmem
    · have hseq : s = sl.getD a (0, 0) := by simpa using hmem
      subst hseq
      rcases hclone with hm | he
      · exact h3 _ hm
      · rw [he]
        intro habs
        simp [U64MAX] at habs
  · intro s hs hne
    have hlift : ∀ u ∈ sl, u.2 ≠ U64MAX → u.1 ≤ u.2 ∧
        (u.2 = 0 ∨ ∃ t ∈ sl ++ [sl.getD a (0, 0)], t.1 = u.2) := by
      intro u hu hune
      obtain ⟨hle, hdisj⟩ := h4 u hu hune
      refine ⟨hle, ?_⟩
      rcases hdisj with h0 | ⟨t, ht, hteq⟩
      · exact Or.inl h0
      · exact Or.inr ⟨t, List.mem_append_left _ ht, hteq⟩
    rcases List.mem_append.mp hs with hmem | hmem
    · exact hlift s hmem hne
    · have hseq : s = sl.getD a (0, 0) := by simpa using hmem
      subst hseq
      rcases hclone with hm | he
      · exact hlift _ hm hne
      · rw [he]
        exact ⟨le_refl 0, Or.inl rfl⟩

theorem wsInv_offset {sl : List (Nat × Nat)} {p lo : Nat} (h : wsInv sl p lo) (d : Nat)
    (hd : 1 ≤ d) (hcur : p + d < U64) :
    wsInv (resolve_slices_from sl 0 lo (p + d - 1) ++ [(p + d - 1, U64MAX)])
      (p + d) sl.length := by
  obtain ⟨h1, h2, h3, h4⟩ := h
  have heneq : p + d - 1 ≠ U64MAX := by
    simp only [U64, U64MAX] at hcur ⊢
    omega
  refine ⟨?_, ?_, ?_, ?_⟩
  · simp [List.length_append, resolve_slices_from_length]
  · intro i s hget hi
    rw [List.get?_append (by rw [resolve_slices_from_length]; exact hi)] at hget
    rw [resolve_slices_from_get?] at hget
    cases hsl : sl.get? i with
    | none => rw [hsl] at hget; simp at hget
    | some t =>
      rw [hsl] at hget
      injection hget with hget
      simp only [Nat.zero_add] at hget
      by_cases hc : lo ≤ i ∧ t.2 = U64MAX
      · rw [if_pos hc] at hget
        rw [← hget]
        exact heneq
      · rw [if_neg hc] at hget
        rw [← hget]
        intro habs
        have hjlo : ¬ lo ≤ i := fun hle => hc ⟨hle, habs⟩
        exact (h2 i t hsl (by omega)) habs
  · intro s hs
    rcases List.mem_append.mp hs with hmem | hmem
    · rw [mem_resolve_slices_from] at hmem
      obtain ⟨j, t, hjt, hs_eq⟩ := hmem
      rw [hs_eq]
      by_cases hc : lo ≤ j ∧ t.2 = U64MAX
      · rw [if_pos hc]
        intro habs
        exact absurd habs heneq
      · rw [if_neg hc]
        intro habs
        have hjlo : ¬ lo ≤ j := fun hle => hc ⟨hle, habs⟩
        exact absurd habs (h2 j t hjt (by omega))
    · have hseq : s = (p + d - 1, U64MAX) := by simpa using hmem
      rw [hseq]
      intro _
      simp
      omega
  · intro s hs hne
    rcases List.mem_append.mp hs with hmem | hmem
    · rw [mem_resolve_slices_from] at hmem
      obtain ⟨j, t, hjt, hs_eq⟩ := hmem
      have htmem : t ∈ sl := List.get?_mem hjt
      by_cases hc : lo ≤ j ∧ t.2 = U64MAX
      · rw [hs_eq, if_pos hc]
        have hstart := h3 t htmem hc.2
        constructor
        · simp
          omega
        · right
          exact ⟨(p + d - 1, U64MAX), List.mem_append_right _ (by simp), rfl⟩
      · rw [hs_eq, if_neg hc] at hne ⊢
        obtain ⟨hle, hdisj⟩ := h4 t htmem hne
        refine ⟨hle, ?_⟩
        rcases hdisj with h0 | ⟨u, hu, hueq⟩
        · exact Or.inl h0
        · obtain ⟨w, hw, hweq⟩ := resolve_slices_from_preserves_starts lo (p + d - 1) hu
          exact Or.inr ⟨w, List.mem_append_left _ hw, by omega⟩
    · have hseq : s = (p + d - 1, U64MAX) := by simpa using hmem
      rw [hseq] at hne
      exact absurd rfl hne

theorem wsInv_final {sl : List (Nat × Nat)} {p lo : Nat} (h : wsInv sl p lo) (L : Nat)
    (hstart : ∀ s ∈ resolve_slices_from sl 0 lo L, s.1 ≤ L) :
    ∀ s ∈ resolve_slices_from sl 0 lo L, s.1 ≤ s.2 ∧ s.2 ≤ L := by
  obtain ⟨h1, h2, h3, h4⟩ := h
  intro s hs
  have hs1 := hstart s hs
  rw [mem_resolve_slices_from] at hs
  obtain ⟨j, t, hjt, hs_eq⟩ := hs
  by_cases hc : lo ≤ j ∧ t.2 = U64MAX
  · rw [if_pos hc] at hs_eq
    rw [hs_eq] at hs1 ⊢
    exact ⟨hs1, le_refl L⟩
  · rw [if_neg hc] at hs_eq
    rw [hs_eq] at hs1 ⊢
    have htne : t.2 ≠ U64MAX := by
      intro habs
      have hjlo : ¬ lo ≤ j := fun hle => hc ⟨hle, habs⟩
      exact (h2 j t hjt (by omega)) habs
    obtain ⟨hle, hdisj⟩ := h4 t (List.get?_mem hjt) htne
    refine ⟨hle, ?_⟩
    rcases hdisj with h0 | ⟨u, hu, hueq⟩
    · omega
    · obtain ⟨w, hw, hweq⟩ := resolve_slices_from_preserves_starts lo L hu
      have := hstart w hw
      omega

theorem ws_go_bounds (numVars L : Nat) :
    ∀ fuel input slices prevOff prevAlias lo out,
      wsInv slices prevOff lo →
      read_wave_slices_go fuel input numVars L slices prevOff prevAlias lo = .ok out →
      (∀ s ∈ out, s.1 ≤ L) →
      ∀ s ∈ out, s.1 ≤ s.2 ∧ s.2 ≤ L := by
  intro fuel
  induction fuel with
  | zero =>
    intro input slices prevOff prevAlias lo out _ hok
    simp [read_wave_slices_go] at hok
  | succ f ih =>
    intro input slices prevOff prevAlias lo out hinv hok hstart
    rw [read_wave_slices_go] at hok
    by_cases hlt : slices.length < numVars
    · rw [if_pos hlt] at hok
      cases hcb : collect_varint_bytes input 0 with
      | error e => rw [hcb] at hok; exact absurd hok (by simp)
      | ok cr =>
        obtain ⟨chunk, rest⟩ := cr
        rw [hcb] at hok
        simp only at hok
        by_cases hpar : chunk.headD 0 &&& 1 = 0
        · rw [if_pos hpar] at hok
          cases hdv : decode_varint chunk with
          | none => rw [hdv] at hok; exact absurd hok (by simp)
          | some u =>
            rw [hdv] at hok
            simp only at hok
            by_cases hov : slices.length + (u >>> 1) ≤ numVars
            · rw [if_pos hov] at hok
              exact ih rest _ prevOff prevAlias lo out (wsInv_append_empties hinv _) hok hstart
            · rw [if_neg hov] at hok; exact absurd hok (by simp)
        · rw [if_neg hpar] at hok
          cases hdv : decode_svarint chunk with
          | fail => rw [hdv] at hok; exact absurd hok (by simp)
          | panic => rw [hdv] at hok; exact absurd hok (by simp)
          | val s =>
            rw [hdv] at hok
            simp only at hok
            by_cases hpos : 0 < s.ediv 2
            · rw [if_pos hpos] at hok
              by_cases hovf : prevOff + (s.ediv 2).toNat < U64
              · rw [if_pos hovf] at hok
                have hd1 : 1 ≤ (s.ediv 2).toNat := by omega
                exact ih rest _ _ prevAlias slices.length out
                  (wsInv_offset hinv _ hd1 hovf) hok hstart
              · rw [if_neg hovf] at hok; exact absurd hok (by simp)
            · rw [if_neg hpos] at hok
              by_cases hneg : s.ediv 2 < 0
              · rw [if_pos hneg] at hok
                by_cases halias : slices.length ≤ (-(s.ediv 2 + 1)).toNat
                · rw [if_pos halias] at hok; exact absurd hok (by simp)
                · rw [if_neg halias] at hok
                  exact ih rest _ prevOff _ lo out (wsInv_append_clone hinv _) hok hstart
              · rw [if_neg hneg] at hok
                cases prevAlias with
                | some a =>
                  simp only at hok
                  exact ih rest _ prevOff _ lo out (wsInv_append_clone hinv _) hok hstart
                | none => simp only at hok; exact absurd hok (by simp)
    · rw [if_neg hlt] at hok
      have hout : out = resolve_slices_from slices 0 lo L := by
        injection hok with hok
        exact hok.symm
      subst hout
      exact wsInv_final hinv L hstart

/-- C5 corrected.  Provided the resolver succeeds and every slice start lies
within the waves region (`start ≤ L`, i.e. every delta-encoded offset stayed
in range - a property `read_wave_slices` itself never checks), every
resolved slice satisfies `start ≤ end` and `end ≤ L`. -/
theorem read_wave_slices_bounds (input : List Nat) (numVars L : Nat) (out : List (Nat × Nat))
    (hok : read_wave_slices input numVars L = .ok out)
    (hstart : ∀ s ∈ out, s.1 ≤ L) :
    ∀ s ∈ out, s.1 ≤ s.2 ∧ s.2 ≤ L := by
  have hinv : wsInv [] 0 0 := by
    refine ⟨le_refl 0, ?_, ?_, ?_⟩
    · intro i s h hi; simp [List.get?] at h
    · intro s hs; exact absurd hs (List.not_mem_nil s)
    · intro s hs; exact absurd hs (List.not_mem_nil s)
  exact ws_go_bounds numVars L (input.length + 1) input [] 0 none 0 out hinv hok hstart

/-- Witness for `read_wave_slices_bounds` on the position table
`[0x04, 0x0F, 0x7B, 0x01, 0x13]` (zero-run 2, offset 7, dynamic alias to
var 2, repeat alias, offset 9) with 6 vars and waves length 20. -/
theorem read_wave_slices_bounds_witness :
    read_wave_slices [4, 15, 123, 1, 19] 6 20
        = .ok [(0, 0), (0, 0), (6, 15), (6, 15), (6, 15), (15, 20)]
    ∧ (15 ≤ 20 ∧ 20 ≤ 20) :=
  ⟨by decide,
   read_wave_slices_bounds [4, 15, 123, 1, 19] 6 20
     [(0, 0), (0, 0), (6, 15), (6, 15), (6, 15), (15, 20)] (by decide) (by decide)
     (15, 20) (by decide)⟩

/-- C5 counterexample.  The claim fails as stated: the resolver never
validates offsets against the waves-region length, so for the position table
`[0x0B, 0x0B]` (two delta offsets of 5) with 2 vars and waves length 0 it
succeeds with slices `[4, 9)` and `[9, 0)` - the first slice's end 9 exceeds
the region length 0, and the second has end 0 below its start 9. -/
theorem read_wave_slices_bounds_counterexample :
    read_wave_slices [11, 11] 2 0 = .ok [(4, 9), (9, 0)]
    ∧ ¬ (∀ s ∈ ([(4, 9), (9, 0)] : List (Nat × Nat)), s.1 ≤ s.2 ∧ s.2 ≤ 0) := by
  constructor
  · decide
  · decide

/-! ## Claim C3: refinement of the position-table resolver to its specification -/

theorem chunkWF_tail {b : Nat} {c : List Nat} (h : chunkWF (b :: c)) (hc : c ≠ []) : chunkWF c := by
  obtain ⟨x, xs, rfl⟩ : ∃ x xs, c = x :: xs := by
    cases c with
    | nil => exact absurd rfl hc
    | cons x xs => exact ⟨x, xs, rfl⟩
  obtain ⟨_, hlen, hcont, hlast1, hlast2⟩ := h
  rw [List.getLastD_cons, List.getLastD_cons] at hlast1 hlast2
  refine ⟨by simp, by simp at hlen ⊢; omega, ?_, ?_, ?_⟩
  · intro y hy
    apply hcont
    rw [List.dropLast_cons_of_ne_nil (by simp)]
    exact List.mem_cons_of_mem b hy
  · rw [List.getLastD_cons]
    exact hlast1
  · rw [List.getLastD_cons]
    exact hlast2

theorem collect_varint_chunk :
    ∀ (c : List Nat), chunkWF c → ∀ (rest : List Nat) (len : Nat), len + c.length ≤ 10 →
      collect_varint_bytes (c ++ rest) len = .ok (c, rest) := by
  intro c
  induction c with
  | nil => intro h; exact absurd rfl h.1
  | cons b c ih =>
    intro h rest len hlen
    cases c with
    | nil =>
      have hterm : b &&& 128 = 0 := by
        have := h.2.2.2.2
        simpa using this
      simp [collect_varint_bytes, hterm]
    | cons b2 c2 =>
      have hcont : b &&& 128 ≠ 0 := by
        have := h.2.2.1 b (by rw [List.dropLast_cons_of_ne_nil (by simp)]; simp)
        exact this.2
      have hlen10 : ¬ (len + 1 ≥ 10) := by
        simp at hlen
        omega
      rw [List.cons_append, collect_varint_bytes]
      rw [if_neg hcont, if_neg hlen10]
      rw [ih (chunkWF_tail h (by simp)) rest (len + 1) (by simp at hlen ⊢; omega)]

theorem resolve_eq_close {sl : List (Nat × Option Nat)} {lo : Nat} (e : Nat)
    (hlo : ∀ i s, sl.get? i = some s → i < lo → s.2 ≠ none)
    (hne : ∀ s ∈ sl, ∀ x, s.2 = some x → x ≠ U64MAX) :
    resolve_slices_from (sl.map fun s => (s.1, s.2.getD U64MAX)) 0 lo e
      = sl.map fun s => (s.1, s.2.getD e) := by
  apply List.ext_get?
  intro j
  rw [resolve_slices_from_get?, List.get?_map, List.get?_map]
  cases hj : sl.get? j with
  | none => rfl
  | some t =>
    simp only [Option.map_some']
    congr 1
    cases ht : t.2 with
    | none =>
      by_cases hjlo : lo ≤ j
      · simp [ht, hjlo]
      · exact absurd ht (hlo j t hj (by omega))
    | some x =>
      have hxne : x ≠ U64MAX := hne t (List.get?_mem hj) x ht
      simp [ht, hxne]

theorem entriesCover_cons (e : PosEntry) (es : List PosEntry) :
    entriesCover (e :: es) = e.cover + entriesCover es := by
  simp [entriesCover]

theorem resolverSpecGo_ok_length :
    ∀ (es : List PosEntry) (sl : List (Nat × Option Nat)) (prev : Nat) (pa : Option Nat) out,
      resolverSpecGo es sl prev pa = .ok out → out.length = sl.length + entriesCover es := by
  intro es
  induction es with
  | nil =>
    intro sl prev pa out h
    simp [resolverSpecGo] at h
    simp [← h, entriesCover]
  | cons e es ih =>
    intro sl prev pa out h
    rw [entriesCover_cons]
    cases e with
    | zeroRun k =>
      simp only [resolverSpecGo] at h
      have := ih _ _ _ _ h
      simp [this, PosEntry.cover]
      omega
    | offset d =>
      simp only [resolverSpecGo] at h
      have := ih _ _ _ _ h
      simp [this, PosEntry.cover]
      omega
    | dynAlias a =>
      simp only [resolverSpecGo] at h
      by_cases ha : a < sl.length
      · rw [if_pos ha] at h
        have := ih _ _ _ _ h
        simp [this, PosEntry.cover]
        omega
      · rw [if_neg ha] at h
        exact absurd h (by simp)
    | repeatAlias =>
      simp only [resolverSpecGo] at h
      cases pa with
      | some a =>
        simp only at h
        have := ih _ _ _ _ h
        simp [this, PosEntry.cover]
        omega
      | none => simp at h

theorem map_close_embed (sl : List (Nat × Option Nat)) (e : Nat) :
    (sl.map fun s => if s.2 = none then (s.1, some e) else s).map
        (fun s => (s.1, s.2.getD U64MAX))
      = sl.map fun s => (s.1, s.2.getD e) := by
  rw [List.map_map]
  congr 1
  funext s
  cases hs : s.2 with
  | none => simp [Function.comp, hs]
  | some x => simp [Function.comp, hs]

theorem embed_getD (sl : List (Nat × Option Nat)) (a : Nat) :
    (sl.map fun s => (s.1, s.2.getD U64MAX)).getD a ((0 : Nat), (0 : Nat))
      = ((sl.getD a (0, some 0)).1, (sl.getD a (0, some 0)).2.getD U64MAX) := by
  rw [List.getD_eq_get?, List.getD_eq_get?, List.get?_map]
  cases h : sl.get? a with
  | none => simp
  | some t => simp

theorem specInv_append {sl : List (Nat × Option Nat)} {lo : Nat}
    (xs : List (Nat × Option Nat))
    (h1 : ∀ i s, sl.get? i = some s → i < lo → s.2 ≠ none)
    (hlo : lo ≤ sl.length) :
    ∀ i s, (sl ++ xs).get? i = some s → i < lo → s.2 ≠ none := by
  intro i s hget hi
  rw [List.get?_append (by omega)] at hget
  exact h1 i s hget hi

theorem specInv_end_append {sl xs : List (Nat × Option Nat)}
    (h2 : ∀ s ∈ sl, ∀ x, s.2 = some x → x < U64MAX)
    (hxs : ∀ s ∈ xs, ∀ x, s.2 = some x → x < U64MAX) :
    ∀ s ∈ sl ++ xs, ∀ x, s.2 = some x → x < U64MAX := by
  intro s hs
  rcases List.mem_append.mp hs with h | h
  · exact h2 s h
  · exact hxs s h

theorem specInv_end_clone {sl : List (Nat × Option Nat)}
    (h2 : ∀ s ∈ sl, ∀ x, s.2 = some x → x < U64MAX) (a : Nat) :
    ∀ s ∈ sl ++ [sl.getD a (0, some 0)], ∀ x, s.2 = some x → x < U64MAX := by
  apply specInv_end_append h2
  intro s hs x hx
  have hseq : s = sl.getD a (0, some 0) := by simpa using hs
  rw [List.getD_eq_get?] at hseq
  cases hget : sl.get? a with
  | none =>
    rw [hget] at hseq
    simp at hseq
    rw [hseq] at hx
    simp at hx
    rw [← hx]
    norm_num [U64MAX]
  | some t =>
    rw [hget] at hseq
    simp at hseq
    rw [hseq] at hx
    exact h2 t (List.get?_mem hget) x hx

theorem int_ediv_as_div (x y : Int) : x.ediv y = x / y := rfl

theorem specInv_end_empties (k : Nat) :
    ∀ s ∈ List.replicate k ((0 : Nat), some (0 : Nat)), ∀ x, s.2 = some x → x < U64MAX := by
  intro s hs x hx
  have hseq : s = (0, some 0) := List.eq_of_mem_replicate hs
  rw [hseq] at hx
  simp at hx
  rw [← hx]
  norm_num [U64MAX]

theorem specCurs_cons_zeroRun (k : Nat) (es : List PosEntry) (p : Nat) :
    specCurs (PosEntry.zeroRun k :: es) p = specCurs es p := by
  simp [specCurs]

theorem specCurs_cons_offset (d : Nat) (es : List PosEntry) (p : Nat) :
    specCurs (PosEntry.offset d :: es) p = (p + d) :: specCurs es (p + d) := by
  simp [specCurs]

theorem specCurs_cons_dynAlias (a : Nat) (es : List PosEntry) (p : Nat) :
    specCurs (PosEntry.dynAlias a :: es) p = specCurs es p := by
  simp [specCurs]

theorem specCurs_cons_repeatAlias (es : List PosEntry) (p : Nat) :
    specCurs (PosEntry.repeatAlias :: es) p = specCurs es p := by
  simp [specCurs]

theorem specInv_close_lo {sl : List (Nat × Option Nat)} (e : Nat) :
    ∀ i s, ((sl.map fun s : Nat × Option Nat => if s.2 = none then (s.1, some e) else s)
        ++ [(e, none)]).get? i = some s →
      i < sl.length → s.2 ≠ none := by
  intro i s hget hi
  rw [List.get?_append (by simpa using hi)] at hget
  rw [List.get?_map] at hget
  cases ht : sl.get? i with
  | none => rw [ht] at hget; simp at hget
  | some t =>
    rw [ht] at hget
    injection hget with hget
    rw [← hget]
    cases h2 : t.2 with
    | none => simp [h2]
    | some x => simp [h2]

theorem specInv_close_end {sl : List (Nat × Option Nat)} {e : Nat}
    (h2 : ∀ s ∈ sl, ∀ x, s.2 = some x → x < U64MAX) (he : e < U64MAX) :
    ∀ s ∈ (sl.map fun s : Nat × Option Nat => if s.2 = none then (s.1, some e) else s)
        ++ [(e, none)],
      ∀ x, s.2 = some x → x < U64MAX := by
  intro s hs x hx
  rcases List.mem_append.mp hs with h | h
  · obtain ⟨t, ht, hteq⟩ := List.mem_map.mp h
    rw [← hteq] at hx
    by_cases h2t : t.2 = none
    · rw [if_pos h2t] at hx
      simp at hx
      rw [← hx]
      exact he
    · rw [if_neg h2t] at hx
      exact h2 t ht x hx
  · have hseq : s = (e, none) := by simpa using h
    rw [hseq] at hx
    simp at hx

theorem ws_go_refines (numVars L : Nat) :
    ∀ (cs : List (List Nat)) (es : List PosEntry), List.Forall₂ entryEncodes cs es →
      ∀ fuel sl prev pa lo,
        cs.flatten.length + 1 ≤ fuel →
        (∀ i s, sl.get? i = some s → i < lo → s.2 ≠ none) →
        (∀ s ∈ sl, ∀ x, s.2 = some x → x < U64MAX) →
        lo ≤ sl.length →
        (∀ c ∈ specCurs es prev, c < U64) →
        sl.length + entriesCover es = numVars →
        (∀ n, n < es.length → sl.length + entriesCover (es.take n) < numVars) →
        (match resolverSpecGo es sl prev pa with
         | .ok slF =>
           read_wave_slices_go fuel cs.flatten numVars L
             (sl.map fun s => (s.1, s.2.getD U64MAX)) prev pa lo = .ok (specFinish slF L)
         | .error _ =>
           ∃ err, read_wave_slices_go fuel cs.flatten numVars L
             (sl.map fun s => (s.1, s.2.getD U64MAX)) prev pa lo = .error err) := by
  intro cs es henc
  induction henc with
  | nil =>
    intro fuel sl prev pa lo hfuel h1 h2 hlo hoff hcov hpre
    simp only [resolverSpecGo]
    cases fuel with
    | zero => simp at hfuel
    | succ f =>
      rw [read_wave_slices_go]
      have hnv : ¬ ((sl.map fun s => (s.1, s.2.getD U64MAX)).length < numVars) := by
        rw [List.length_map]
        simp [entriesCover] at hcov
        omega
      rw [if_neg hnv]
      rw [resolve_eq_close L h1 (fun s hs x hx => Nat.ne_of_lt (h2 s hs x hx))]
      rfl
  | @cons c e cs es hce htail ih =>
    intro fuel sl prev pa lo hfuel h1 h2 hlo hoff hcov hpre
    simp only [entryEncodes] at hce
    have hwf : chunkWF c := hce.1
    have hclen : 1 ≤ c.length := by
      cases c with
      | nil => exact absurd rfl hwf.1
      | cons _ _ => simp
    have hflat : List.flatten (c :: cs) = c ++ cs.flatten := by simp
    cases fuel with
    | zero =>
      rw [hflat, List.length_append] at hfuel
      omega
    | succ f =>
      have hfuel2 : cs.flatten.length + 1 ≤ f := by
        rw [hflat, List.length_append] at hfuel
        omega
      have hltNum : (sl.map fun s => (s.1, s.2.getD U64MAX)).length < numVars := by
        rw [List.length_map]
        have hp := hpre 0 (by simp)
        simpa [entriesCover] using hp
      have hcollect := collect_varint_chunk c hwf cs.flatten 0 (by have := hwf.2.1; omega)
      cases e with
      | zeroRun k =>
        obtain ⟨_, hhead, hdec⟩ := hce
        have hk : (2 * k) >>> 1 = k := by
          rw [Nat.shiftRight_eq_div_pow]
          omega
        have hcovk : entriesCover (PosEntry.zeroRun k :: es) = k + entriesCover es := by
          simp [entriesCover_cons, PosEntry.cover]
        have hover : sl.length + k ≤ numVars := by omega
        have hemb : read_wave_slices_go (f + 1) (List.flatten (c :: cs)) numVars L
              (sl.map fun s => (s.1, s.2.getD U64MAX)) prev pa lo
            = read_wave_slices_go f cs.flatten numVars L
              ((sl ++ List.replicate k ((0 : Nat), some (0 : Nat))).map
                fun s => (s.1, s.2.getD U64MAX)) prev pa lo := by
          rw [hflat, read_wave_slices_go, if_pos hltNum, hcollect]
          simp only
          rw [if_pos hhead, hdec]
          simp only [hk, List.length_map]
          rw [if_pos hover]
          rw [List.map_append, List.map_replicate]
          rfl
        rw [hemb]
        simp only [resolverSpecGo]
        apply ih f (sl ++ List.replicate k (0, some 0)) prev pa lo hfuel2
          (specInv_append _ h1 hlo)
          (specInv_end_append h2 (specInv_end_empties k))
          (by simp [List.length_append]; omega)
          (by rwa [specCurs_cons_zeroRun] at hoff)
          (by simp only [List.length_append, List.length_replicate]; omega)
        intro n hn
        have hp := hpre (n + 1) (by simp; omega)
        simp only [List.take_succ_cons, hcovk, entriesCover_cons, PosEntry.cover,
          List.length_append, List.length_replicate] at hp ⊢
        omega
      | offset d =>
        obtain ⟨_, hhead, hdpos, hdec⟩ := hce
        have hv : (2 * (d : Int) + 1).ediv 2 = (d : Int) := by
          rw [int_ediv_as_div]
          omega
        have htn : ((d : Int)).toNat = d := by simp
        have hcur : prev + d < U64 := by
          apply hoff
          rw [specCurs_cons_offset]
          simp
        have h2ne : ∀ s ∈ sl, ∀ x, s.2 = some x → x ≠ U64MAX :=
          fun s hs x hx => Nat.ne_of_lt (h2 s hs x hx)
        have hemb : read_wave_slices_go (f + 1) (List.flatten (c :: cs)) numVars L
              (sl.map fun s => (s.1, s.2.getD U64MAX)) prev pa lo
            = read_wave_slices_go f cs.flatten numVars L
              (((sl.map fun s : Nat × Option Nat =>
                  if s.2 = none then (s.1, some (prev + d - 1)) else s)
                ++ [(prev + d - 1, none)]).map fun s : Nat × Option Nat => (s.1, s.2.getD U64MAX))
              (prev + d) pa sl.length := by
          rw [hflat, read_wave_slices_go, if_pos hltNum, hcollect]
          simp only
          rw [if_neg (by rw [hhead]; exact one_ne_zero), hdec]
          simp only [hv, htn]
          rw [if_pos (by exact_mod_cast hdpos)]
          rw [if_pos hcur]
          simp only [List.length_map]
          rw [resolve_eq_close (prev + d - 1) h1 h2ne]
          rw [List.map_append, map_close_embed]
          rfl
        rw [hemb]
        simp only [resolverSpecGo]
        apply ih f _ (prev + d) pa sl.length hfuel2
          (specInv_close_lo (prev + d - 1))
          (specInv_close_end h2 (by simp only [U64, U64MAX] at hcur ⊢; omega))
          (by simp [List.length_append, List.length_map])
          (by
            rw [specCurs_cons_offset] at hoff
            intro x hx
            exact hoff x (List.mem_cons_of_mem _ hx))
          (by
            have hc := entriesCover_cons (PosEntry.offset d) es
            have hc1 : (PosEntry.offset d).cover = 1 := rfl
            rw [hc1] at hc
            simp only [List.length_append, List.length_map, List.length_cons, List.length_nil]
            omega)
        intro n hn
        have hp := hpre (n + 1) (by simp; omega)
        have hc := entriesCover_cons (PosEntry.offset d) es
        have hc1 : (PosEntry.offset d).cover = 1 := rfl
        rw [hc1] at hc
        simp only [List.take_succ_cons, hc, entriesCover_cons] at hp
        have hc2 : (PosEntry.offset d).cover = 1 := rfl
        rw [hc2] at hp
        simp only [List.length_append, List.length_map, List.length_cons, List.length_nil]
        omega
      | dynAlias a =>
        obtain ⟨_, hhead, hdec⟩ := hce
        have hv : (-2 * (a : Int) - 1).ediv 2 = -((a : Int) + 1) := by
          rw [int_ediv_as_div]
          omega
        have hva : (-((-((a : Int) + 1)) + 1)).toNat = a := by omega
        by_cases hA : a < sl.length
        · have hemb : read_wave_slices_go (f + 1) (List.flatten (c :: cs)) numVars L
                (sl.map fun s => (s.1, s.2.getD U64MAX)) prev pa lo
              = read_wave_slices_go f cs.flatten numVars L
                ((sl ++ [sl.getD a (0, some 0)]).map fun s => (s.1, s.2.getD U64MAX))
                prev (some a) lo := by
            rw [hflat, read_wave_slices_go, if_pos hltNum, hcollect]
            simp only
            rw [if_neg (by rw [hhead]; exact one_ne_zero), hdec]
            simp only [hv]
            rw [if_neg (by omega), if_pos (by omega)]
            simp only [hva, List.length_map]
            rw [if_neg (by omega)]
            rw [List.map_append, embed_getD]
            rfl
          rw [hemb]
          simp only [resolverSpecGo]
          rw [if_pos hA]
          apply ih f _ prev (some a) lo hfuel2
            (specInv_append _ h1 hlo)
            (specInv_end_clone h2 a)
            (by simp [List.length_append]; omega)
            (by rwa [specCurs_cons_dynAlias] at hoff)
            (by
              have hc := entriesCover_cons (PosEntry.dynAlias a) es
              have hc1 : (PosEntry.dynAlias a).cover = 1 := rfl
              rw [hc1] at hc
              simp only [List.length_append, List.length_cons, List.length_nil]
              omega)
          intro n hn
          have hp := hpre (n + 1) (by simp; omega)
          have hc := entriesCover_cons (PosEntry.dynAlias a) es
          have hc1 : (PosEntry.dynAlias a).cover = 1 := rfl
          rw [hc1] at hc
          simp only [List.take_succ_cons, hc, entriesCover_cons] at hp
          have hc2 : (PosEntry.dynAlias a).cover = 1 := rfl
          rw [hc2] at hp
          simp only [List.length_append, List.length_cons, List.length_nil]
          omega
        · simp only [resolverSpecGo]
          rw [if_neg hA]
          refine ⟨Err.bail "Position table aliases var to one that has not been seen yet.", ?_⟩
          rw [hflat, read_wave_slices_go, if_pos hltNum, hcollect]
          simp only
          rw [if_neg (by rw [hhead]; exact one_ne_zero), hdec]
          simp only [hv]
          rw [if_neg (by omega), if_pos (by omega)]
          simp only [hva, List.length_map]
          rw [if_pos (by omega)]
      | repeatAlias =>
        obtain ⟨_, hhead, hdec⟩ := hce
        have hv : ((1 : Int)).ediv 2 = 0 := by
          rw [int_ediv_as_div]
          omega
        cases pa with
        | none =>
          simp only [resolverSpecGo]
          refine ⟨Err.bail "Position table aliased var to previous alias but there is none.", ?_⟩
          rw [hflat, read_wave_slices_go, if_pos hltNum, hcollect]
          simp only
          rw [if_neg (by rw [hhead]; exact one_ne_zero), hdec]
          simp only [hv]
          rw [if_neg (by omega), if_neg (by omega)]
        | some a =>
          have hemb : read_wave_slices_go (f + 1) (List.flatten (c :: cs)) numVars L
                (sl.map fun s => (s.1, s.2.getD U64MAX)) prev (some a) lo
              = read_wave_slices_go f cs.flatten numVars L
                ((sl ++ [sl.getD a (0, some 0)]).map fun s => (s.1, s.2.getD U64MAX))
                prev (some a) lo := by
            rw [hflat, read_wave_slices_go, if_pos hltNum, hcollect]
            simp only
            rw [if_neg (by rw [hhead]; exact one_ne_zero), hdec]
            simp only [hv]
            rw [if_neg (by omega), if_neg (by omega)]
            rw [List.map_append, embed_getD]
            rfl
          rw [hemb]
          simp only [resolverSpecGo]
          apply ih f _ prev (some a) lo hfuel2
            (specInv_append _ h1 hlo)
            (specInv_end_clone h2 a)
            (by simp [List.length_append]; omega)
            (by rwa [specCurs_cons_repeatAlias] at hoff)
            (by
              have hc := entriesCover_cons PosEntry.repeatAlias es
              have hc1 : (PosEntry.repeatAlias).cover = 1 := rfl
              rw [hc1] at hc
              simp only [List.length_append, List.length_cons, List.length_nil]
              omega)
          intro n hn
          have hp := hpre (n + 1) (by simp; omega)
          have hc := entriesCover_cons PosEntry.repeatAlias es
          have hc1 : (PosEntry.repeatAlias).cover = 1 := rfl
          rw [hc1] at hc
          simp only [List.take_succ_cons, hc, entriesCover_cons] at hp
          have hc2 : (PosEntry.repeatAlias).cover = 1 := rfl
          rw [hc2] at hp
          simp only [List.length_append, List.length_cons, List.length_nil]
          omega

/-- C3.  The byte-level position-table resolver `read_wave_slices` refines
the resolver described by the specification: for any entry list encoded as a
sequence of well-formed varint chunks that covers exactly `num_vars` VarIds
(every proper prefix covering fewer), with all cumulative offsets in `u64`
range, `read_wave_slices` returns exactly the slices of the specification
resolver (zero-runs append empty slices; a positive `v = svarint >> 1` sets
`cur = prev + v`, appends `[cur - 1, unresolved)` and closes every earlier
unresolved end at `cur - 1`; a negative `v` is a dynamic alias to VarId
`-v - 1`, which must be strictly lower, cloning that VarId's current slice;
`v = 0` repeats the previous dynamic alias; after all entries the remaining
unresolved ends become the waves length `L`), with one slice per VarId; and
whenever the specification resolver faults (forward alias, or repeat without
a previous alias), `read_wave_slices` also fails. -/
theorem read_wave_slices_refines_spec
    (es : List PosEntry) (cs : List (List Nat)) (numVars L : Nat)
    (henc : List.Forall₂ entryEncodes cs es)
    (hcov : entriesCover es = numVars)
    (hpre : ∀ n, n < es.length → entriesCover (es.take n) < numVars)
    (hoff : ∀ x ∈ specCurs es 0, x < U64) :
    (∀ sl, resolverSpec es L = .ok sl →
        read_wave_slices cs.flatten numVars L = .ok sl ∧ sl.length = numVars)
    ∧ (∀ msg, resolverSpec es L = .error msg →
        ∃ err, read_wave_slices cs.flatten numVars L = .error err) := by
  have hmain := ws_go_refines numVars L cs es henc (cs.flatten.length + 1) [] 0 none 0
    (le_refl _)
    (by intro i s h hi; simp [List.get?] at h)
    (by intro s hs; exact absurd hs (List.not_mem_nil s))
    (by simp)
    hoff
    (by simpa using hcov)
    (by intro n hn; simpa using hpre n hn)
  constructor
  · intro sl hsl
    unfold resolverSpec at hsl
    cases hgo : resolverSpecGo es [] 0 none with
    | ok slF =>
      rw [hgo] at hsl hmain
      simp only [Except.ok.injEq] at hsl
      constructor
      · rw [← hsl]
        unfold read_wave_slices
        simpa using hmain
      · rw [← hsl]
        have hl := resolverSpecGo_ok_length es [] 0 none slF hgo
        simp [specFinish] at hl ⊢
        omega
    | error msg2 =>
      rw [hgo] at hsl
      simp at hsl
  · intro msg hsl
    unfold resolverSpec at hsl
    cases hgo : resolverSpecGo es [] 0 none with
    | ok slF =>
      rw [hgo] at hsl
      simp at hsl
    | error msg2 =>
      rw [hgo] at hmain
      obtain ⟨err, herr⟩ := hmain
      refine ⟨err, ?_⟩
      unfold read_wave_slices
      simpa using herr

/-- Witness for `read_wave_slices_refines_spec` on the specification's
scenario: entries (zero-run 2, offset 7, dynamic alias to var 2, repeat
alias, offset 9) encoded as bytes `[0x04, 0x0F, 0x7B, 0x01, 0x13]` with 6
vars and waves length 20. -/
theorem read_wave_slices_refines_spec_witness :
    read_wave_slices [4, 15, 123, 1, 19] 6 20
      = .ok [(0, 0), (0, 0), (6, 15), (6, 15), (6, 15), (15, 20)] := by
  have h := read_wave_slices_refines_spec
    [.zeroRun 2, .offset 7, .dynAlias 2, .repeatAlias, .offset 9]
    [[4], [15], [123], [1], [19]] 6 20
    (List.Forall₂.cons (by decide) (List.Forall₂.cons (by decide) (List.Forall₂.cons (by decide)
      (List.Forall₂.cons (by decide) (List.Forall₂.cons (by decide) List.Forall₂.nil)))))
    (by decide)
    (by decide)
    (by decide)
  have h2 := h.1 [(0, 0), (0, 0), (6, 15), (6, 15), (6, 15), (15, 20)] (by decide)
  simpa using h2.1
